import Mathlib

/-
Verification of a single-instrument in-memory limit order book
(order.py, ordertypes.py, orderbook.py) against its specification.

Python floats are modelled as rationals (prices are only compared and
ordered, never arithmetically combined, so any linear order is faithful);
Python dicts (which preserve insertion order and have unique keys) are
modelled as insertion-ordered association lists; the ledger's count and
quantity are modelled as integers since Python ints are signed and the
code can drive them below zero on malformed states.  Exceptions
(ValueError in Order.fill / Order.to_good_till_cancel) are modelled with
Option / Except.  The matching loop's two nested while-loops are modelled
with explicit fuel; running out of fuel is a distinguished error value,
kept separate from the fill-overflow error so that claims about each can
be stated independently.
-/

namespace OB

inductive Side where
  | BUY
  | SELL
  deriving DecidableEq, Repr

inductive OrderType where
  | GOOD_TILL_CANCEL
  | FILL_AND_KILL
  | FILL_OR_KILL
  | GOOD_FOR_DAY
  | MARKET
  deriving DecidableEq, Repr

/-- Order record (order.py, class Order).  The constructor sets
remaining_quantity equal to the requested quantity. -/
structure Order where
  order_type : OrderType
  order_id : ℕ
  side : Side
  price : ℚ
  initial_quantity : ℕ
  remaining_quantity : ℕ
  deriving DecidableEq, Repr

/-- Order.__init__ : both quantity fields start at the requested quantity. -/
def Order.new (order_type : OrderType) (order_id : ℕ) (side : Side)
    (price : ℚ) (quantity : ℕ) : Order :=
  ⟨order_type, order_id, side, price, quantity, quantity⟩

def Order.is_filled (o : Order) : Bool :=
  o.remaining_quantity == 0

/-- Order.fill: raises ValueError (modelled as none) when asked to fill
more than the remaining quantity. -/
def Order.fill (o : Order) (quantity : ℕ) : Option Order :=
  if quantity > o.remaining_quantity then none
  else some { o with remaining_quantity := o.remaining_quantity - quantity }

/-- Order.to_good_till_cancel: raises ValueError (modelled as none) on a
non-Market order; otherwise rewrites price and discipline. -/
def Order.to_good_till_cancel (o : Order) (price : ℚ) : Option Order :=
  if o.order_type ≠ OrderType.MARKET then none
  else some { o with price := price, order_type := OrderType.GOOD_TILL_CANCEL }

structure OrderModify where
  order_id : ℕ
  side : Side
  price : ℚ
  quantity : ℕ
  deriving DecidableEq, Repr

/-- OrderModify.to_order -/
def OrderModify.to_order (m : OrderModify) (order_type : OrderType) : Order :=
  Order.new order_type m.order_id m.side m.price m.quantity

structure TradeInfo where
  order_id : ℕ
  price : ℚ
  quantity : ℕ
  deriving DecidableEq, Repr

structure Trade where
  bid_trade : TradeInfo
  ask_trade : TradeInfo
  deriving DecidableEq, Repr

/-- One entry of the aggregate depth ledger self.data
(the Python dict literal has keys quantity and count). -/
structure LevelData where
  quantity : ℤ
  count : ℤ
  deriving DecidableEq, Repr

/- ### Insertion-ordered association lists, the model of Python dicts -/

def alLookup {K V : Type} [DecidableEq K] : List (K × V) → K → Option V
  | [], _ => none
  | (k, v) :: t, key => if key = k then some v else alLookup t key

def alGetD {K V : Type} [DecidableEq K] (l : List (K × V)) (key : K) (d : V) : V :=
  (alLookup l key).getD d

/-- Python dict assignment: replace the value at an existing key in place,
otherwise append the new binding at the end (insertion order). -/
def alSet {K V : Type} [DecidableEq K] : List (K × V) → K → V → List (K × V)
  | [], key, v => [(key, v)]
  | (k, w) :: t, key, v =>
    if key = k then (k, v) :: t else (k, w) :: alSet t key v

/-- In-place mutation through an alias: replace the value at an existing
key, no effect when the key is absent. -/
def alReplace {K V : Type} [DecidableEq K] : List (K × V) → K → V → List (K × V)
  | [], _, _ => []
  | (k, w) :: t, key, v =>
    if key = k then (k, v) :: t else (k, w) :: alReplace t key v

/-- Python del d[key] (no-op when absent; Python would raise KeyError,
which the order book code only ever triggers on keys it knows present). -/
def alErase {K V : Type} [DecidableEq K] : List (K × V) → K → List (K × V)
  | [], _ => []
  | (k, w) :: t, key => if key = k then t else (k, w) :: alErase t key

def alKeys {K V : Type} (l : List (K × V)) : List K := l.map Prod.fst

/- ### max / min over dict keys -/

def maxKey {V : Type} (l : List (ℚ × V)) : ℚ :=
  match l with
  | [] => 0
  | (k, _) :: t => (alKeys t).foldl max k

def minKey {V : Type} (l : List (ℚ × V)) : ℚ :=
  match l with
  | [] => 0
  | (k, _) :: t => (alKeys t).foldl min k

/- ### The book (orderbook.py, class Orderbook)

The Python registry maps an id to the pair (order, reference to the list
containing it); the reference is recoverable from the order's side and
price, so the model stores the order alone.  Object aliasing (the queue
and the registry share one mutable Order object) is modelled by updating
both copies whenever the matching loop mutates a resident order. -/

structure Book where
  data : List (ℚ × LevelData)
  bids : List (ℚ × List Order)
  asks : List (ℚ × List Order)
  orders : List (ℕ × Order)
  deriving DecidableEq, Repr

def emptyBook : Book := ⟨[], [], [], []⟩

/-- Orderbook._update_level_data -/
def update_level_data (b : Book) (price : ℚ) (quantity : ℕ)
    (is_add : Bool) (is_match : Bool) : Book :=
  let cur := alGetD b.data price ⟨0, 0⟩
  let cur' :=
    if is_add then LevelData.mk (cur.quantity + (quantity : ℤ)) (cur.count + 1)
    else if is_match then LevelData.mk (cur.quantity - (quantity : ℤ)) cur.count
    else LevelData.mk (cur.quantity - (quantity : ℤ)) (cur.count - 1)
  let d := alSet b.data price cur'
  { b with data := if cur'.count = 0 then alErase d price else d }

/-- Orderbook._can_match -/
def can_match (b : Book) (side : Side) (price : ℚ) : Bool :=
  match side with
  | Side.BUY => !b.asks.isEmpty && decide (price ≥ minKey b.asks)
  | Side.SELL => !b.bids.isEmpty && decide (price ≤ maxKey b.bids)

def insertAsc (x : ℚ) : List ℚ → List ℚ
  | [] => [x]
  | y :: t => if x ≤ y then x :: y :: t else y :: insertAsc x t

/-- Python sorted(...) (ascending). -/
def sortAsc (l : List ℚ) : List ℚ := l.foldr insertAsc []

/-- The accumulation loop of Orderbook._can_fully_fill. -/
def can_fully_fill_walk (b : Book) (side : Side) (price : ℚ) :
    List ℚ → ℤ → Bool
  | [], _ => false
  | level_price :: rest, remaining_quantity =>
    if (side = Side.BUY ∧ level_price > price) ∨
       (side = Side.SELL ∧ level_price < price) then
      can_fully_fill_walk b side price rest remaining_quantity
    else
      let level_quantity := (alGetD b.data level_price ⟨0, 0⟩).quantity
      if remaining_quantity ≤ level_quantity then true
      else can_fully_fill_walk b side price rest (remaining_quantity - level_quantity)

/-- Orderbook._can_fully_fill.  Note the walk is over the unified ledger
self.data, which holds BOTH sides' price levels. -/
def can_fully_fill (b : Book) (side : Side) (price : ℚ) (quantity : ℕ) : Bool :=
  if !can_match b side price then false
  else
    let relevant_prices :=
      if side = Side.BUY then (sortAsc (alKeys b.data)).reverse
      else sortAsc (alKeys b.data)
    can_fully_fill_walk b side price relevant_prices (quantity : ℤ)

/-- Python list.remove(order): Order has no value equality, so removal is
by object identity; resident ids are unique, so removal of the first
element carrying the order's id is the faithful value-level rendering. -/
def removeOrder : List Order → ℕ → List Order
  | [], _ => []
  | o :: t, i => if o.order_id = i then t else o :: removeOrder t i

/-- Orderbook.cancel_order (the body under the lock). -/
def cancel_order (b : Book) (order_id : ℕ) : Book :=
  match alLookup b.orders order_id with
  | none => b
  | some o =>
    let orders' := alErase b.orders order_id
    let m := match o.side with
      | Side.BUY => b.bids
      | Side.SELL => b.asks
    let lst := alGetD m o.price []
    let lst' := removeOrder lst o.order_id
    let m' := if lst'.isEmpty then alErase m o.price else alReplace m o.price lst'
    let b' := match o.side with
      | Side.BUY => { b with bids := m', orders := orders' }
      | Side.SELL => { b with asks := m', orders := orders' }
    update_level_data b' o.price o.remaining_quantity false false

def sideQueues (b : Book) (s : Side) : List (ℚ × List Order) :=
  match s with
  | Side.BUY => b.bids
  | Side.SELL => b.asks

def queue_at (b : Book) (s : Side) (price : ℚ) : List Order :=
  alGetD (sideQueues b s) price []

def setQueues (b : Book) (s : Side) (m : List (ℚ × List Order)) : Book :=
  match s with
  | Side.BUY => { b with bids := m }
  | Side.SELL => { b with asks := m }

def replaceHead (l : List Order) (o : Order) : List Order :=
  match l with
  | [] => []
  | _ :: t => o :: t

/-- The Python matching loop mutates the shared Order object; the queue
head and the registry entry alias it, so both copies are updated. -/
def store_head (b : Book) (s : Side) (key : ℚ) (o : Order) : Book :=
  let b₁ := setQueues b s (alReplace (sideQueues b s) key
    (replaceHead (alGetD (sideQueues b s) key []) o))
  { b₁ with orders := alReplace b₁.orders o.order_id o }

/-- self.bids[best_bid_price].pop(0) (resp. asks). -/
def pop_head (b : Book) (s : Side) (key : ℚ) : Book :=
  setQueues b s (alReplace (sideQueues b s) key
    ((alGetD (sideQueues b s) key []).tail))

inductive MatchErr where
  | fill_overflow
  | conversion_misuse
  | out_of_fuel
  deriving DecidableEq, Repr

inductive InnerRes where
  | done (trades : List Trade) (b : Book)
  | ret (trades : List Trade) (b : Book)
  | err (e : MatchErr)
  deriving DecidableEq, Repr

/-- The inner while-loop of Orderbook._match_orders (lines 112-152):
done = the loop condition failed or a break fired (control returns to
the outer loop), ret = the fill-and-kill early return of the whole
match, err = ValueError from Order.fill, or fuel ran out. -/
def match_inner : ℕ → ℚ → ℚ → Book → List Trade → InnerRes
  | 0, _, _, _, _ => InnerRes.err MatchErr.out_of_fuel
  | fuel + 1, best_bid_price, best_ask_price, b, trades =>
    match alGetD b.bids best_bid_price [], alGetD b.asks best_ask_price [] with
    | bid₀ :: _, ask₀ :: _ =>
      let match_quantity := min bid₀.remaining_quantity ask₀.remaining_quantity
      match bid₀.fill match_quantity, ask₀.fill match_quantity with
      | some bid, some ask =>
        let b := store_head b Side.BUY best_bid_price bid
        let b := store_head b Side.SELL best_ask_price ask
        let trades := trades ++
          [Trade.mk (TradeInfo.mk bid.order_id bid.price match_quantity)
                    (TradeInfo.mk ask.order_id ask.price match_quantity)]
        let b := update_level_data b bid.price match_quantity false true
        let b := update_level_data b ask.price match_quantity false true
        if bid.order_type = OrderType.FILL_AND_KILL ∨
           ask.order_type = OrderType.FILL_AND_KILL then
          let b := if !bid.is_filled then cancel_order b bid.order_id else b
          let b := if !ask.is_filled then cancel_order b ask.order_id else b
          InnerRes.ret trades b
        else
          let b := if bid.is_filled then
              let b₁ := pop_head b Side.BUY best_bid_price
              { b₁ with orders := alErase b₁.orders bid.order_id }
            else b
          let b := if ask.is_filled then
              let b₁ := pop_head b Side.SELL best_ask_price
              { b₁ with orders := alErase b₁.orders ask.order_id }
            else b
          if (alGetD b.bids best_bid_price []).isEmpty then
            InnerRes.done trades { b with bids := alErase b.bids best_bid_price }
          else if (alGetD b.asks best_ask_price []).isEmpty then
            InnerRes.done trades { b with asks := alErase b.asks best_ask_price }
          else
            match_inner fuel best_bid_price best_ask_price b trades
      | _, _ => InnerRes.err MatchErr.fill_overflow
    | _, _ => InnerRes.done trades b

/-- The outer while-loop of Orderbook._match_orders (lines 105-154). -/
def match_outer : ℕ → Book → List Trade → Except MatchErr (List Trade × Book)
  | 0, _, _ => Except.error MatchErr.out_of_fuel
  | fuel + 1, b, trades =>
    if b.bids.isEmpty || b.asks.isEmpty then Except.ok (trades, b)
    else
      let best_bid_price := maxKey b.bids
      let best_ask_price := minKey b.asks
      if best_bid_price < best_ask_price then Except.ok (trades, b)
      else
        match match_inner fuel best_bid_price best_ask_price b trades with
        | InnerRes.err e => Except.error e
        | InnerRes.ret trades' b' => Except.ok (trades', b')
        | InnerRes.done trades' b' => match_outer fuel b' trades'

/-- Fuel bound: each productive iteration of either loop removes at least
one resident order or one price level, so this bound is never exhausted
on well-formed books. -/
def match_fuel (b : Book) : ℕ :=
  b.orders.length + b.bids.length + b.asks.length + 1

/-- Orderbook._match_orders -/
def match_orders (b : Book) : Except MatchErr (List Trade × Book) :=
  match_outer (match_fuel b) b []

/-- The insertion part of Orderbook.add_order (lines 179-185). -/
def insert_order (b : Book) (order : Order) : Book :=
  let m := sideQueues b order.side
  let m' := alSet m order.price (alGetD m order.price [] ++ [order])
  let b₁ := setQueues b order.side m'
  let b₂ := { b₁ with orders := alSet b₁.orders order.order_id order }
  update_level_data b₂ order.price order.initial_quantity true false

/-- Orderbook.add_order after the duplicate-id check and market
conversion (lines 171-187). -/
def add_order_after_checks (b : Book) (order : Order) :
    Except MatchErr (List Trade × Book) :=
  if order.order_type = OrderType.FILL_AND_KILL ∧
     !can_match b order.side order.price then Except.ok ([], b)
  else if order.order_type = OrderType.FILL_OR_KILL ∧
     !can_fully_fill b order.side order.price order.initial_quantity then
    Except.ok ([], b)
  else
    match_orders (insert_order b order)

/-- Orderbook.add_order (the body under the lock). -/
def add_order (b : Book) (order : Order) : Except MatchErr (List Trade × Book) :=
  if (alLookup b.orders order.order_id).isSome then Except.ok ([], b)
  else if order.order_type = OrderType.MARKET then
    if order.side = Side.BUY ∧ !b.asks.isEmpty then
      match order.to_good_till_cancel (maxKey b.asks) with
      | some o => add_order_after_checks b o
      | none => Except.error MatchErr.conversion_misuse
    else if order.side = Side.SELL ∧ !b.bids.isEmpty then
      match order.to_good_till_cancel (minKey b.bids) with
      | some o => add_order_after_checks b o
      | none => Except.error MatchErr.conversion_misuse
    else Except.ok ([], b)
  else add_order_after_checks b order

/-- Orderbook.modify_order (the body under the lock). -/
def modify_order (b : Book) (m : OrderModify) :
    Except MatchErr (List Trade × Book) :=
  match alLookup b.orders m.order_id with
  | none => Except.ok ([], b)
  | some original_order =>
    add_order (cancel_order b m.order_id) (m.to_order original_order.order_type)

/-- Orderbook.size (the body under the lock). -/
def size (b : Book) : ℕ := b.orders.length

/- ### Helpers for stating concrete evaluations -/

def after_ok (r : Except MatchErr (List Trade × Book)) : Book :=
  match r with
  | Except.ok (_, b) => b
  | Except.error _ => emptyBook

def trades_of (r : Except MatchErr (List Trade × Book)) : List Trade :=
  match r with
  | Except.ok (t, _) => t
  | Except.error _ => []

def is_ok (r : Except MatchErr (List Trade × Book)) : Bool :=
  match r with
  | Except.ok _ => true
  | Except.error _ => false

def inner_overflow (r : InnerRes) : Bool :=
  match r with
  | InnerRes.err MatchErr.fill_overflow => true
  | _ => false

def result_overflow (r : Except MatchErr (List Trade × Book)) : Bool :=
  match r with
  | Except.error MatchErr.fill_overflow => true
  | _ => false

/- ### Well-formedness of book states (spec section 8 invariants), used as
hypotheses where a claim quantifies over book states -/

/-- Every price key of either side holds a non-empty queue. -/
def queues_nonempty (b : Book) : Bool :=
  b.bids.all (fun kv => !kv.2.isEmpty) && b.asks.all (fun kv => !kv.2.isEmpty)

/-- The book is uncrossed at rest. -/
def uncrossed (b : Book) : Bool :=
  b.bids.isEmpty || b.asks.isEmpty || decide (maxKey b.bids < minKey b.asks)

/-- Every ledger entry has positive order count. -/
def data_counts_pos (b : Book) : Bool :=
  b.data.all (fun kv => decide (0 < kv.2.count))

/-- The identifier is registered nowhere: not in the registry and not on
any resident order of either side. -/
def id_free (b : Book) (i : ℕ) : Bool :=
  (alLookup b.orders i).isNone
  && b.bids.all (fun kv => kv.2.all (fun o => o.order_id != i))
  && b.asks.all (fun kv => kv.2.all (fun o => o.order_id != i))

/-- Not marketable, in the sense of the spec glossary: a limit order is
marketable when can_match holds at its price; a Market order is
marketable against any depth, so it is non-marketable exactly when the
opposite side is empty. -/
def non_marketable (b : Book) (o : Order) : Bool :=
  match o.order_type, o.side with
  | OrderType.MARKET, Side.BUY => b.asks.isEmpty
  | OrderType.MARKET, Side.SELL => b.bids.isEmpty
  | _, _ => !can_match b o.side o.price

/- ### The lock discipline (orderbook.py uses one non-reentrant
threading.Lock).  Each operation is abstracted to the sequence of
acquire/release events it performs; a non-reentrant lock held by the same
thread blocks forever on a second acquire. -/

inductive LockEvent where
  | acq
  | rel
  deriving DecidableEq, Repr

/-- Single-threaded execution of a lock-event trace against one
non-reentrant lock: acquiring at depth above zero blocks forever. -/
def run_lock : List LockEvent → ℕ → Option ℕ
  | [], d => some d
  | LockEvent.acq :: t, d => if d = 0 then run_lock t 1 else none
  | LockEvent.rel :: t, d + 1 => run_lock t d
  | LockEvent.rel :: _, 0 => none

def deadlock_free (es : List LockEvent) : Bool := (run_lock es 0).isSome

/-- cancel_order, line 190: the whole body runs under with self.lock. -/
def cancel_order_lock_events : List LockEvent := [LockEvent.acq, LockEvent.rel]

/-- add_order, line 157: the body runs under with self.lock; inside it the
matching loop calls cancel_order (lines 133 and 135) when a
fill-and-kill head is left with a residual; rest stands for whatever
other lock events the call performs afterwards. -/
def add_order_lock_events (fak_residual_cancelled : Bool)
    (rest : List LockEvent) : List LockEvent :=
  LockEvent.acq ::
    ((if fak_residual_cancelled then cancel_order_lock_events else [])
      ++ rest ++ [LockEvent.rel])

/-- modify_order, line 206: the body runs under with self.lock and, when
the identifier is present, calls cancel_order (line 213) and then
add_order (line 214), both of which acquire the same lock. -/
def modify_order_lock_events (present : Bool)
    (add_events : List LockEvent) : List LockEvent :=
  LockEvent.acq ::
    ((if present then cancel_order_lock_events ++ add_events else [])
      ++ [LockEvent.rel])

/- ### Concrete executions used as evidence for individual claims -/

/-- Spec scenario 5: Sell GoodTillCancel id=1 at 100 qty 5, then Sell
GoodTillCancel id=2 at 101 qty 5. -/
def s5_book : Book :=
  after_ok (add_order
    (after_ok (add_order emptyBook
      (Order.new OrderType.GOOD_TILL_CANCEL 1 Side.SELL 100 5)))
    (Order.new OrderType.GOOD_TILL_CANCEL 2 Side.SELL 101 5))

/-- Spec scenario 5 continued: ImmediateOrCancel Buy id=3 at 101 qty 7. -/
def s5_result : Except MatchErr (List Trade × Book) :=
  add_order s5_book (Order.new OrderType.FILL_AND_KILL 3 Side.BUY 101 7)

/-- Sell GoodTillCancel id=1 at 100 qty 10. -/
def c2_book : Book :=
  after_ok (add_order emptyBook
    (Order.new OrderType.GOOD_TILL_CANCEL 1 Side.SELL 100 10))

/-- ImmediateOrCancel Buy id=2 at 101 qty 10 against c2_book: both heads
fill completely, so the fill-and-kill early return skips their removal. -/
def c2_result : Except MatchErr (List Trade × Book) :=
  add_order c2_book (Order.new OrderType.FILL_AND_KILL 2 Side.BUY 101 10)

/-- Buy GoodTillCancel id=1 at 99 qty 10, then Sell GoodTillCancel id=2
at 100 qty 5: same-side (bid) depth of 10 rests below an ask of 5. -/
def c3_book : Book :=
  after_ok (add_order
    (after_ok (add_order emptyBook
      (Order.new OrderType.GOOD_TILL_CANCEL 1 Side.BUY 99 10)))
    (Order.new OrderType.GOOD_TILL_CANCEL 2 Side.SELL 100 5))

/-- AllOrNone Buy id=3 at 100 qty 10 against c3_book: only 5 of opposing
depth is marketable, yet the feasibility walk also counts the 10 resting
on the bid side at 99. -/
def c3_result : Except MatchErr (List Trade × Book) :=
  add_order c3_book (Order.new OrderType.FILL_OR_KILL 3 Side.BUY 100 10)

/-- Sell GoodTillCancel id=1 at 100 qty 5. -/
def c4_book : Book :=
  after_ok (add_order emptyBook
    (Order.new OrderType.GOOD_TILL_CANCEL 1 Side.SELL 100 5))

/-- Aggressor Buy GoodTillCancel id=2 at 101 qty 5 crosses the resting
ask at 100. -/
def c4_result : Except MatchErr (List Trade × Book) :=
  add_order c4_book (Order.new OrderType.GOOD_TILL_CANCEL 2 Side.BUY 101 5)

/-- Sell GoodTillCancel id=1 at 100 qty 10, used to witness the market
conversion. -/
def c5_book : Book :=
  after_ok (add_order emptyBook
    (Order.new OrderType.GOOD_TILL_CANCEL 1 Side.SELL 100 10))

/-- Book holding one resident order id=1, used to witness modify. -/
def c7_book : Book :=
  after_ok (add_order emptyBook
    (Order.new OrderType.GOOD_TILL_CANCEL 1 Side.BUY 100 10))

/-- Book holding two resident bids at distinct prices, used to witness
the cancel frame property. -/
def c10_book : Book :=
  after_ok (add_order
    (after_ok (add_order emptyBook
      (Order.new OrderType.GOOD_TILL_CANCEL 1 Side.BUY 100 10)))
    (Order.new OrderType.GOOD_TILL_CANCEL 2 Side.BUY 99 20))

/-- The book state the matching loop is entered on inside add_order for
the C4 crossing: c4_book with the aggressor Buy GoodTillCancel id=2 at
101 qty 5 already inserted. -/
def c4_match_book : Book :=
  insert_order c4_book (Order.new OrderType.GOOD_TILL_CANCEL 2 Side.BUY 101 5)

/-- Some order record resident on the given side map carries both the
order_id and the price that the TradeInfo reports: the TradeInfo agrees
with one same-side order record on both fields at once. -/
def own_pair (m : List (ℚ × List Order)) (ti : TradeInfo) : Prop :=
  ∃ kv ∈ m, ∃ x ∈ kv.2, x.order_id = ti.order_id ∧ x.price = ti.price

/- ### Lemmas about association lists -/

section AL

variable {K V : Type} [DecidableEq K]

theorem mem_alKeys_cons {k k₀ : K} {u : V} {t : List (K × V)} :
    k ∈ alKeys ((k₀, u) :: t) ↔ k = k₀ ∨ k ∈ alKeys t := by
  simp [alKeys]

theorem alLookup_eq_none {l : List (K × V)} {k : K} :
    alLookup l k = none ↔ k ∉ alKeys l := by
  induction l with
  | nil => simp [alLookup, alKeys]
  | cons hd t ih =>
    obtain ⟨k', v⟩ := hd
    by_cases h : k = k' <;> simp [alLookup, alKeys, h] at ih ⊢ <;> simp [ih]

theorem alLookup_mem {l : List (K × V)} {k : K} {v : V}
    (h : alLookup l k = some v) : (k, v) ∈ l := by
  induction l with
  | nil => simp [alLookup] at h
  | cons hd t ih =>
    obtain ⟨k', w⟩ := hd
    by_cases hk : k = k'
    · subst hk
      simp [alLookup] at h
      simp [h]
    · simp [alLookup, hk] at h
      simp [ih h]

theorem alLookup_isSome_of_mem {l : List (K × V)} {k : K}
    (h : k ∈ alKeys l) : ∃ v, alLookup l k = some v := by
  cases hv : alLookup l k with
  | none => exact absurd (alLookup_eq_none.mp hv) (by simp [h])
  | some v => exact ⟨v, rfl⟩

theorem alGetD_mem {l : List (K × V)} {k : K} (d : V)
    (h : k ∈ alKeys l) : (k, alGetD l k d) ∈ l := by
  obtain ⟨v, hv⟩ := alLookup_isSome_of_mem h
  rw [alGetD, hv]
  exact alLookup_mem hv

theorem alLookup_alSet_self (l : List (K × V)) (k : K) (v : V) :
    alLookup (alSet l k v) k = some v := by
  induction l with
  | nil => simp [alSet, alLookup]
  | cons hd t ih =>
    obtain ⟨k', w⟩ := hd
    by_cases h : k = k' <;> simp [alSet, alLookup, h, ih]

theorem alLookup_alSet_ne (l : List (K × V)) {k k' : K} (v : V)
    (h : k' ≠ k) : alLookup (alSet l k v) k' = alLookup l k' := by
  induction l with
  | nil => simp [alSet, alLookup, h]
  | cons hd t ih =>
    obtain ⟨k₀, w⟩ := hd
    by_cases h0 : k = k₀
    · subst h0
      simp [alSet, alLookup, h]
    · by_cases h1 : k' = k₀ <;> simp [alSet, alLookup, h0, h1, ih]

theorem alSet_alSet (l : List (K × V)) (k : K) (v w : V) :
    alSet (alSet l k v) k w = alSet l k w := by
  induction l with
  | nil => simp [alSet]
  | cons hd t ih =>
    obtain ⟨k₀, u⟩ := hd
    by_cases h : k = k₀ <;> simp [alSet, h, ih]

theorem alReplace_alSet (l : List (K × V)) (k : K) (v w : V) :
    alReplace (alSet l k v) k w = alSet l k w := by
  induction l with
  | nil => simp [alSet, alReplace]
  | cons hd t ih =>
    obtain ⟨k₀, u⟩ := hd
    by_cases h : k = k₀ <;> simp [alSet, alReplace, h, ih]

theorem alSet_getD_self (l : List (K × V)) (k : K) (d : V)
    (h : k ∈ alKeys l) : alSet l k (alGetD l k d) = l := by
  induction l with
  | nil => simp [alKeys] at h
  | cons hd t ih =>
    obtain ⟨k₀, u⟩ := hd
    by_cases h0 : k = k₀
    · subst h0
      simp [alSet, alGetD, alLookup]
    · have h' : k ∈ alKeys t := by
        rcases mem_alKeys_cons.mp h with h1 | h1
        · exact absurd h1 h0
        · exact h1
      simp [alSet, alGetD, alLookup, h0] at ih ⊢
      exact ih h'

theorem alSet_of_not_mem (l : List (K × V)) {k : K} (v : V)
    (h : k ∉ alKeys l) : alSet l k v = l ++ [(k, v)] := by
  induction l with
  | nil => simp [alSet]
  | cons hd t ih =>
    obtain ⟨k₀, u⟩ := hd
    rw [mem_alKeys_cons] at h
    push_neg at h
    simp [alSet, h.1, ih h.2]

theorem alErase_append_of_not_mem (l : List (K × V)) {k : K} (v : V)
    (h : k ∉ alKeys l) : alErase (l ++ [(k, v)]) k = l := by
  induction l with
  | nil => simp [alErase]
  | cons hd t ih =>
    obtain ⟨k₀, u⟩ := hd
    rw [mem_alKeys_cons] at h
    push_neg at h
    simp [alErase, h.1, ih h.2]

theorem alLookup_append {l l' : List (K × V)} {k : K}
    (h : alLookup l k = none) : alLookup (l ++ l') k = alLookup l' k := by
  induction l with
  | nil => simp
  | cons hd t ih =>
    obtain ⟨k₀, u⟩ := hd
    by_cases h0 : k = k₀
    · simp [alLookup, h0] at h
    · simp [alLookup, h0] at h ⊢
      exact ih h

theorem alLookup_alErase_ne (l : List (K × V)) {k k' : K}
    (h : k' ≠ k) : alLookup (alErase l k) k' = alLookup l k' := by
  induction l with
  | nil => simp [alErase]
  | cons hd t ih =>
    obtain ⟨k₀, u⟩ := hd
    by_cases h0 : k = k₀
    · subst h0
      simp [alErase, alLookup, h]
    · by_cases h1 : k' = k₀ <;> simp [alErase, alLookup, h0, h1, ih]

theorem alLookup_alErase_self (l : List (K × V)) (k : K)
    (h : (alKeys l).Nodup) : alLookup (alErase l k) k = none := by
  induction l with
  | nil => simp [alErase, alLookup]
  | cons hd t ih =>
    obtain ⟨k₀, u⟩ := hd
    have h2 : (k₀ :: alKeys t).Nodup := h
    rw [List.nodup_cons] at h2
    by_cases h0 : k = k₀
    · subst h0
      simp only [alErase, if_pos rfl]
      exact alLookup_eq_none.mpr h2.1
    · simp only [alErase, if_neg h0]
      simp [alLookup, h0, ih h2.2]

theorem alLookup_alReplace_self {l : List (K × V)} {k : K} (v : V) {w : V}
    (h : alLookup l k = some w) : alLookup (alReplace l k v) k = some v := by
  induction l with
  | nil => simp [alLookup] at h
  | cons hd t ih =>
    obtain ⟨k₀, u⟩ := hd
    by_cases h0 : k = k₀
    · simp [alReplace, alLookup, h0]
    · simp [alLookup, h0] at h
      simp [alReplace, alLookup, h0, ih h]

theorem alLookup_alReplace_ne (l : List (K × V)) {k k' : K} (v : V)
    (h : k' ≠ k) : alLookup (alReplace l k v) k' = alLookup l k' := by
  induction l with
  | nil => simp [alReplace]
  | cons hd t ih =>
    obtain ⟨k₀, u⟩ := hd
    by_cases h0 : k = k₀
    · subst h0
      simp [alReplace, alLookup, h]
    · by_cases h1 : k' = k₀ <;> simp [alReplace, alLookup, h0, h1, ih]

theorem mem_alKeys_alSet {l : List (K × V)} {k x : K} {v : V}
    (h : x ∈ alKeys (alSet l k v)) : x ∈ alKeys l ∨ x = k := by
  induction l with
  | nil =>
    simp [alSet, alKeys] at h
    simp [h]
  | cons hd t ih =>
    obtain ⟨k₀, u⟩ := hd
    by_cases h0 : k = k₀
    · subst h0
      simp [alSet, mem_alKeys_cons] at h ⊢
      tauto
    · simp only [alSet, if_neg h0] at h
      rw [mem_alKeys_cons] at h ⊢
      rcases h with h | h
      · tauto
      · rcases ih h with h1 | h1 <;> tauto

theorem alSet_ne_nil (l : List (K × V)) (k : K) (v : V) :
    alSet l k v ≠ [] := by
  cases l with
  | nil => simp [alSet]
  | cons hd t =>
    obtain ⟨k₀, u⟩ := hd
    by_cases h : k = k₀ <;> simp [alSet, h]

theorem alKeys_alSet_of_mem (l : List (K × V)) {k : K} (v : V)
    (h : k ∈ alKeys l) : alKeys (alSet l k v) = alKeys l := by
  induction l with
  | nil => simp [alKeys] at h
  | cons hd t ih =>
    obtain ⟨k₀, u⟩ := hd
    by_cases h0 : k = k₀
    · simp [alSet, alKeys, h0]
    · have h' : k ∈ alKeys t := by
        rcases mem_alKeys_cons.mp h with h1 | h1
        · exact absurd h1 h0
        · exact h1
      have hrec := ih h'
      simp only [alSet, if_neg h0, alKeys, List.map_cons]
      simp only [alKeys] at hrec
      rw [hrec]

end AL

/- ### Lemmas about maxKey and minKey -/

theorem le_foldl_max (t : List ℚ) (k : ℚ) : k ≤ t.foldl max k := by
  induction t generalizing k with
  | nil => simp
  | cons y t ih => exact le_trans (le_max_left k y) (ih (max k y))

theorem le_foldl_max_of_mem {t : List ℚ} {x : ℚ} (k : ℚ) (h : x ∈ t) :
    x ≤ t.foldl max k := by
  induction t generalizing k with
  | nil => simp at h
  | cons y t ih =>
    rcases List.mem_cons.mp h with h | h
    · subst h
      exact le_trans (le_max_right k x) (le_foldl_max t (max k x))
    · exact ih (max k y) h

theorem foldl_max_choice (t : List ℚ) (k : ℚ) :
    t.foldl max k = k ∨ t.foldl max k ∈ t := by
  induction t generalizing k with
  | nil => simp
  | cons y t ih =>
    rw [List.foldl_cons]
    rcases ih (max k y) with h | h
    · rw [h]
      rcases max_choice k y with h1 | h1
      · rw [h1]
        exact Or.inl rfl
      · rw [h1]
        exact Or.inr (List.mem_cons_self y t)
    · exact Or.inr (List.mem_cons_of_mem y h)

theorem foldl_min_le (t : List ℚ) (k : ℚ) : t.foldl min k ≤ k := by
  induction t generalizing k with
  | nil => simp
  | cons y t ih => exact le_trans (ih (min k y)) (min_le_left k y)

theorem foldl_min_le_of_mem {t : List ℚ} {x : ℚ} (k : ℚ) (h : x ∈ t) :
    t.foldl min k ≤ x := by
  induction t generalizing k with
  | nil => simp at h
  | cons y t ih =>
    rcases List.mem_cons.mp h with h | h
    · subst h
      exact le_trans (foldl_min_le t (min k x)) (min_le_right k x)
    · exact ih (min k y) h

theorem foldl_min_choice (t : List ℚ) (k : ℚ) :
    t.foldl min k = k ∨ t.foldl min k ∈ t := by
  induction t generalizing k with
  | nil => simp
  | cons y t ih =>
    rw [List.foldl_cons]
    rcases ih (min k y) with h | h
    · rw [h]
      rcases min_choice k y with h1 | h1
      · rw [h1]
        exact Or.inl rfl
      · rw [h1]
        exact Or.inr (List.mem_cons_self y t)
    · exact Or.inr (List.mem_cons_of_mem y h)

theorem le_maxKey {V : Type} {l : List (ℚ × V)} {x : ℚ}
    (h : x ∈ alKeys l) : x ≤ maxKey l := by
  cases l with
  | nil => simp [alKeys] at h
  | cons hd t =>
    obtain ⟨k, v⟩ := hd
    rw [mem_alKeys_cons] at h
    show x ≤ (alKeys t).foldl max k
    rcases h with h | h
    · subst h
      exact le_foldl_max (alKeys t) x
    · exact le_foldl_max_of_mem k h

theorem maxKey_mem {V : Type} {l : List (ℚ × V)} (h : l ≠ []) :
    maxKey l ∈ alKeys l := by
  cases l with
  | nil => simp at h
  | cons hd t =>
    obtain ⟨k, v⟩ := hd
    show (alKeys t).foldl max k ∈ alKeys ((k, v) :: t)
    rw [mem_alKeys_cons]
    rcases foldl_max_choice (alKeys t) k with h1 | h1
    · exact Or.inl h1
    · exact Or.inr h1

theorem minKey_le {V : Type} {l : List (ℚ × V)} {x : ℚ}
    (h : x ∈ alKeys l) : minKey l ≤ x := by
  cases l with
  | nil => simp [alKeys] at h
  | cons hd t =>
    obtain ⟨k, v⟩ := hd
    rw [mem_alKeys_cons] at h
    show (alKeys t).foldl min k ≤ x
    rcases h with h | h
    · subst h
      exact foldl_min_le (alKeys t) x
    · exact foldl_min_le_of_mem k h

theorem minKey_mem {V : Type} {l : List (ℚ × V)} (h : l ≠ []) :
    minKey l ∈ alKeys l := by
  cases l with
  | nil => simp at h
  | cons hd t =>
    obtain ⟨k, v⟩ := hd
    show (alKeys t).foldl min k ∈ alKeys ((k, v) :: t)
    rw [mem_alKeys_cons]
    rcases foldl_min_choice (alKeys t) k with h1 | h1
    · exact Or.inl h1
    · exact Or.inr h1

theorem maxKey_lt_of_forall {V : Type} {l : List (ℚ × V)} {A : ℚ}
    (h : l ≠ []) (h2 : ∀ x ∈ alKeys l, x < A) : maxKey l < A :=
  h2 _ (maxKey_mem h)

theorem lt_minKey_of_forall {V : Type} {l : List (ℚ × V)} {A : ℚ}
    (h : l ≠ []) (h2 : ∀ x ∈ alKeys l, A < x) : A < minKey l :=
  h2 _ (minKey_mem h)

/- ### Lemmas about removeOrder and Order.fill -/

theorem removeOrder_append {L : List Order} {o : Order}
    (h : ∀ x ∈ L, x.order_id ≠ o.order_id) :
    removeOrder (L ++ [o]) o.order_id = L := by
  induction L with
  | nil => simp [removeOrder]
  | cons x t ih =>
    simp at h
    simp [removeOrder, h.1, ih h.2]

theorem fill_min_left (o o' : Order) :
    o.fill (min o.remaining_quantity o'.remaining_quantity) =
      some { o with remaining_quantity :=
        o.remaining_quantity - min o.remaining_quantity o'.remaining_quantity } := by
  simp [Order.fill, Nat.not_lt.mpr (Nat.min_le_left o.remaining_quantity o'.remaining_quantity)]

theorem fill_min_right (o o' : Order) :
    o'.fill (min o.remaining_quantity o'.remaining_quantity) =
      some { o' with remaining_quantity :=
        o'.remaining_quantity - min o.remaining_quantity o'.remaining_quantity } := by
  simp [Order.fill, Nat.not_lt.mpr (Nat.min_le_right o.remaining_quantity o'.remaining_quantity)]

/- ### The matching loop never calls Order.fill above the remaining
quantity: the fill of min(bid.remaining, ask.remaining) always succeeds -/

theorem match_inner_no_overflow (fuel : ℕ) :
    ∀ (B A : ℚ) (b : Book) (tr : List Trade),
      inner_overflow (match_inner fuel B A b tr) = false := by
  induction fuel with
  | zero => intro B A b tr; rfl
  | succ n ih =>
    intro B A b tr
    cases hb : alGetD b.bids B [] with
    | nil => simp [match_inner, hb, inner_overflow]
    | cons bid0 bs =>
      cases ha : alGetD b.asks A [] with
      | nil => simp [match_inner, hb, ha, inner_overflow]
      | cons ask0 as =>
        simp only [match_inner, hb, ha, fill_min_left, fill_min_right]
        repeat' split
        all_goals first | rfl | exact ih B A _ _

theorem match_outer_no_overflow (fuel : ℕ) :
    ∀ (b : Book) (tr : List Trade),
      result_overflow (match_outer fuel b tr) = false := by
  induction fuel with
  | zero => intro b tr; rfl
  | succ n ih =>
    intro b tr
    by_cases h1 : (b.bids.isEmpty || b.asks.isEmpty) = true
    · simp [match_outer, h1, result_overflow]
    · by_cases h2 : maxKey b.bids < minKey b.asks
      · simp [match_outer, h1, h2, result_overflow]
      · have hno := match_inner_no_overflow n (maxKey b.bids) (minKey b.asks) b tr
        cases hmi : match_inner n (maxKey b.bids) (minKey b.asks) b tr with
        | done tr' b' =>
          simp [match_outer, h1, h2, hmi]
          exact ih b' tr'
        | ret tr' b' => simp [match_outer, h1, h2, hmi, result_overflow]
        | err e =>
          rw [hmi] at hno
          cases e with
          | fill_overflow => simp [inner_overflow] at hno
          | conversion_misuse => simp [match_outer, h1, h2, hmi, result_overflow]
          | out_of_fuel => simp [match_outer, h1, h2, hmi, result_overflow]

/- ### All emitted trades carry the same quantity on both sides -/

theorem qty_extend {tr : List Trade} {i₁ i₂ : ℕ} {p₁ p₂ : ℚ} {q : ℕ}
    (htr : ∀ t ∈ tr, t.bid_trade.quantity = t.ask_trade.quantity) :
    ∀ t ∈ tr ++ [Trade.mk (TradeInfo.mk i₁ p₁ q) (TradeInfo.mk i₂ p₂ q)],
      t.bid_trade.quantity = t.ask_trade.quantity := by
  intro t ht
  rcases List.mem_append.mp ht with h | h
  · exact htr t h
  · simp at h
    subst h
    rfl

theorem match_inner_trades_qty (fuel : ℕ) :
    ∀ (B A : ℚ) (b : Book) (tr tr' : List Trade) (b' : Book),
      (∀ t ∈ tr, t.bid_trade.quantity = t.ask_trade.quantity) →
      (match_inner fuel B A b tr = InnerRes.done tr' b' ∨
        match_inner fuel B A b tr = InnerRes.ret tr' b') →
      ∀ t ∈ tr', t.bid_trade.quantity = t.ask_trade.quantity := by
  induction fuel with
  | zero =>
    intro B A b tr tr' b' htr hres
    rcases hres with h | h <;> simp [match_inner] at h
  | succ n ih =>
    intro B A b tr tr' b' htr hres
    cases hb : alGetD b.bids B [] with
    | nil =>
      rcases hres with h | h <;> simp [match_inner, hb] at h
      rw [← h.1]
      exact htr
    | cons bid0 bs =>
      cases ha : alGetD b.asks A [] with
      | nil =>
        rcases hres with h | h <;> simp [match_inner, hb, ha] at h
        rw [← h.1]
        exact htr
      | cons ask0 as =>
        simp only [match_inner, hb, ha, fill_min_left, fill_min_right] at hres
        rcases hres with h | h
        · repeat' split at h
          all_goals first
            | (rcases InnerRes.done.inj h with ⟨h1, h2⟩
               rw [← h1]
               exact qty_extend htr)
            | exact ih B A _ _ tr' b' (qty_extend htr) (Or.inl h)
            | simp at h
        · repeat' split at h
          all_goals first
            | (rcases InnerRes.ret.inj h with ⟨h1, h2⟩
               rw [← h1]
               exact qty_extend htr)
            | exact ih B A _ _ tr' b' (qty_extend htr) (Or.inr h)
            | simp at h

theorem match_outer_trades_qty (fuel : ℕ) :
    ∀ (b : Book) (tr tr' : List Trade) (b' : Book),
      (∀ t ∈ tr, t.bid_trade.quantity = t.ask_trade.quantity) →
      match_outer fuel b tr = Except.ok (tr', b') →
      ∀ t ∈ tr', t.bid_trade.quantity = t.ask_trade.quantity := by
  induction fuel with
  | zero =>
    intro b tr tr' b' htr h
    simp [match_outer] at h
  | succ n ih =>
    intro b tr tr' b' htr h
    simp only [match_outer] at h
    split at h
    · injection h with h2
      injection h2 with h3 h4
      subst h3
      exact htr
    · split at h
      · injection h with h2
        injection h2 with h3 h4
        subst h3
        exact htr
      · cases hmi : match_inner n (maxKey b.bids) (minKey b.asks) b tr with
        | done tr₂ b₂ =>
          rw [hmi] at h
          exact ih b₂ tr₂ tr' b'
            (match_inner_trades_qty n _ _ b tr tr₂ b₂ htr (Or.inl hmi)) h
        | ret tr₂ b₂ =>
          rw [hmi] at h
          injection h with h2
          injection h2 with h3 h4
          subst h3
          exact match_inner_trades_qty n _ _ b tr tr₂ b₂ htr (Or.inr hmi)
        | err e =>
          rw [hmi] at h
          simp at h

theorem match_orders_trades_qty (b : Book) :
    ∀ t ∈ trades_of (match_orders b),
      t.bid_trade.quantity = t.ask_trade.quantity := by
  intro t ht
  cases h : match_orders b with
  | ok r =>
    rw [h] at ht
    exact match_outer_trades_qty (match_fuel b) b [] r.1 r.2 (by simp)
      (by rw [match_orders] at h; rw [h]) t ht
  | error e => simp [trades_of, h] at ht

theorem add_order_trades_qty (b : Book) (o : Order) :
    ∀ t ∈ trades_of (add_order b o),
      t.bid_trade.quantity = t.ask_trade.quantity := by
  intro t ht
  unfold add_order add_order_after_checks at ht
  split at ht
  · simp [trades_of] at ht
  · split at ht
    · split at ht
      · split at ht
        · split at ht
          · simp [trades_of] at ht
          · split at ht
            · simp [trades_of] at ht
            · exact match_orders_trades_qty _ t ht
        · simp [trades_of] at ht
      · split at ht
        · split at ht
          · split at ht
            · simp [trades_of] at ht
            · split at ht
              · simp [trades_of] at ht
              · exact match_orders_trades_qty _ t ht
          · simp [trades_of] at ht
        · simp [trades_of] at ht
    · split at ht
      · simp [trades_of] at ht
      · split at ht
        · simp [trades_of] at ht
        · exact match_orders_trades_qty _ t ht

/- ### Each side of every emitted trade reports its own order record:
the TradeInfo carries the order_id and price of one order resident on
the same side of the book the matching loop was entered on -/

theorem update_level_data_orders (b : Book) (p : ℚ) (q : ℕ) (a m : Bool) :
    (update_level_data b p q a m).orders = b.orders := rfl

theorem update_level_data_bids (b : Book) (p : ℚ) (q : ℕ) (a m : Bool) :
    (update_level_data b p q a m).bids = b.bids := rfl

theorem update_level_data_asks (b : Book) (p : ℚ) (q : ℕ) (a m : Bool) :
    (update_level_data b p q a m).asks = b.asks := rfl

theorem own_pair_cons {k : ℚ} {L : List Order} {t : List (ℚ × List Order)}
    {ti : TradeInfo} :
    own_pair ((k, L) :: t) ti ↔
      (∃ x ∈ L, x.order_id = ti.order_id ∧ x.price = ti.price) ∨
      own_pair t ti := by
  constructor
  · rintro ⟨kv, hkv, x, hx, hxi⟩
    rcases List.mem_cons.mp hkv with rfl | hkv2
    · exact Or.inl ⟨x, hx, hxi⟩
    · exact Or.inr ⟨kv, hkv2, x, hx, hxi⟩
  · rintro (⟨x, hx, hxi⟩ | ⟨kv, hkv, x, hx, hxi⟩)
    · exact ⟨(k, L), List.mem_cons_self _ _, x, hx, hxi⟩
    · exact ⟨kv, List.mem_cons_of_mem _ hkv, x, hx, hxi⟩

theorem own_pair_alReplace {m : List (ℚ × List Order)} {k : ℚ}
    {L : List Order} {ti : TradeInfo}
    (h : own_pair (alReplace m k L) ti) :
    own_pair m ti ∨ ∃ x ∈ L, x.order_id = ti.order_id ∧ x.price = ti.price := by
  induction m with
  | nil => simp [alReplace, own_pair] at h
  | cons hd t ih =>
    obtain ⟨k₀, L₀⟩ := hd
    by_cases hk : k = k₀
    · simp only [alReplace] at h
      rw [if_pos hk] at h
      rcases own_pair_cons.mp h with h1 | h1
      · exact Or.inr h1
      · exact Or.inl (own_pair_cons.mpr (Or.inr h1))
    · simp only [alReplace] at h
      rw [if_neg hk] at h
      rcases own_pair_cons.mp h with h1 | h1
      · exact Or.inl (own_pair_cons.mpr (Or.inl h1))
      · rcases ih h1 with h2 | h2
        · exact Or.inl (own_pair_cons.mpr (Or.inr h2))
        · exact Or.inr h2

theorem own_pair_alErase {m : List (ℚ × List Order)} {k : ℚ} {ti : TradeInfo}
    (h : own_pair (alErase m k) ti) : own_pair m ti := by
  induction m with
  | nil => simp [alErase, own_pair] at h
  | cons hd t ih =>
    obtain ⟨k₀, L₀⟩ := hd
    by_cases hk : k = k₀
    · simp only [alErase] at h
      rw [if_pos hk] at h
      exact own_pair_cons.mpr (Or.inr h)
    · simp only [alErase] at h
      rw [if_neg hk] at h
      rcases own_pair_cons.mp h with h1 | h1
      · exact own_pair_cons.mpr (Or.inl h1)
      · exact own_pair_cons.mpr (Or.inr (ih h1))

theorem mem_of_mem_alGetD {m : List (ℚ × List Order)} {k : ℚ} {x : Order}
    (h : x ∈ alGetD m k []) : ∃ kv ∈ m, x ∈ kv.2 := by
  cases hl : alLookup m k with
  | none =>
    rw [alGetD, hl] at h
    simp at h
  | some L =>
    rw [alGetD, hl] at h
    exact ⟨(k, L), alLookup_mem hl, h⟩

theorem own_pair_of_mem_alGetD {m : List (ℚ × List Order)} {k : ℚ} {x : Order}
    {ti : TradeInfo} (hx : x ∈ alGetD m k [])
    (hid : x.order_id = ti.order_id) (hpr : x.price = ti.price) :
    own_pair m ti := by
  rcases mem_of_mem_alGetD hx with ⟨kv, hkv, hxkv⟩
  exact ⟨kv, hkv, x, hxkv, hid, hpr⟩

theorem own_pair_head {m : List (ℚ × List Order)} {k : ℚ} {x : Order}
    {xs : List Order} {ti : TradeInfo} (h : alGetD m k [] = x :: xs)
    (hid : x.order_id = ti.order_id) (hpr : x.price = ti.price) :
    own_pair m ti := by
  have hx : x ∈ alGetD m k [] := by
    rw [h]
    exact List.mem_cons_self x xs
  exact own_pair_of_mem_alGetD hx hid hpr

theorem mem_replaceHead {l : List Order} {o x : Order}
    (h : x ∈ replaceHead l o) : x = o ∨ x ∈ l := by
  cases l with
  | nil => simp [replaceHead] at h
  | cons y t =>
    rcases List.mem_cons.mp h with rfl | h2
    · exact Or.inl rfl
    · exact Or.inr (List.mem_cons_of_mem _ h2)

theorem mem_removeOrder {l : List Order} {i : ℕ} {x : Order}
    (h : x ∈ removeOrder l i) : x ∈ l := by
  induction l with
  | nil => simp [removeOrder] at h
  | cons y t ih =>
    simp only [removeOrder] at h
    by_cases hy : y.order_id = i
    · rw [if_pos hy] at h
      exact List.mem_cons_of_mem _ h
    · rw [if_neg hy] at h
      rcases List.mem_cons.mp h with rfl | h2
      · exact List.mem_cons_self _ _
      · exact List.mem_cons_of_mem _ (ih h2)

theorem own_pair_pop {M : List (ℚ × List Order)} {k : ℚ} {ti : TradeInfo}
    (h : own_pair (alReplace M k ((alGetD M k []).tail)) ti) :
    own_pair M ti := by
  rcases own_pair_alReplace h with h1 | ⟨x, hx, hxi⟩
  · exact h1
  · exact own_pair_of_mem_alGetD (List.mem_of_mem_tail hx) hxi.1 hxi.2

theorem own_pair_store {M : List (ℚ × List Order)} {k : ℚ} {o : Order}
    {ti : TradeInfo}
    (h : own_pair (alReplace M k (replaceHead (alGetD M k []) o)) ti) :
    own_pair M ti ∨ (o.order_id = ti.order_id ∧ o.price = ti.price) := by
  rcases own_pair_alReplace h with h1 | ⟨x, hx, hxi⟩
  · exact Or.inl h1
  · rcases mem_replaceHead hx with rfl | hx2
    · exact Or.inr hxi
    · exact Or.inl (own_pair_of_mem_alGetD hx2 hxi.1 hxi.2)

theorem own_pair_cancel_bids {b : Book} {i : ℕ} {ti : TradeInfo}
    (h : own_pair (cancel_order b i).bids ti) : own_pair b.bids ti := by
  cases hl : alLookup b.orders i with
  | none =>
    simp only [cancel_order, hl] at h
    exact h
  | some o =>
    cases hs : o.side with
    | BUY =>
      simp only [cancel_order, hl, hs, update_level_data_bids] at h
      split at h
      · exact own_pair_alErase h
      · rcases own_pair_alReplace h with h1 | ⟨x, hx, hxi⟩
        · exact h1
        · exact own_pair_of_mem_alGetD (mem_removeOrder hx) hxi.1 hxi.2
    | SELL =>
      simp only [cancel_order, hl, hs, update_level_data_bids] at h
      exact h

theorem own_pair_cancel_asks {b : Book} {i : ℕ} {ti : TradeInfo}
    (h : own_pair (cancel_order b i).asks ti) : own_pair b.asks ti := by
  cases hl : alLookup b.orders i with
  | none =>
    simp only [cancel_order, hl] at h
    exact h
  | some o =>
    cases hs : o.side with
    | SELL =>
      simp only [cancel_order, hl, hs, update_level_data_asks] at h
      split at h
      · exact own_pair_alErase h
      · rcases own_pair_alReplace h with h1 | ⟨x, hx, hxi⟩
        · exact h1
        · exact own_pair_of_mem_alGetD (mem_removeOrder hx) hxi.1 hxi.2
    | BUY =>
      simp only [cancel_order, hl, hs, update_level_data_asks] at h
      exact h

theorem match_inner_trades_own (fuel : ℕ) :
    ∀ (B A : ℚ) (b : Book) (tr tr' : List Trade) (b' : Book),
      (match_inner fuel B A b tr = InnerRes.done tr' b' ∨
        match_inner fuel B A b tr = InnerRes.ret tr' b') →
      ∀ t ∈ tr', t ∈ tr ∨
        (own_pair b.bids t.bid_trade ∧ own_pair b.asks t.ask_trade ∧
          t.bid_trade.quantity = t.ask_trade.quantity) := by
  induction fuel with
  | zero =>
    intro B A b tr tr' b' hres
    rcases hres with h | h <;> simp [match_inner] at h
  | succ n ih =>
    intro B A b tr tr' b' hres
    cases hb : alGetD b.bids B [] with
    | nil =>
      rcases hres with h | h <;> simp [match_inner, hb] at h
      intro t ht
      rw [← h.1] at ht
      exact Or.inl ht
    | cons bid0 bs =>
      cases ha : alGetD b.asks A [] with
      | nil =>
        rcases hres with h | h <;> simp [match_inner, hb, ha] at h
        intro t ht
        rw [← h.1] at ht
        exact Or.inl ht
      | cons ask0 as =>
        simp only [match_inner, hb, ha, fill_min_left, fill_min_right] at hres
        rcases hres with h | h
        · repeat' split at h
          all_goals first
            | (rcases InnerRes.done.inj h with ⟨h1, h2⟩
               subst h1
               intro t ht
               rcases List.mem_append.mp ht with h3 | h3
               · exact Or.inl h3
               · simp at h3
                 subst h3
                 exact Or.inr ⟨own_pair_head hb rfl rfl,
                   own_pair_head ha rfl rfl, rfl⟩)
            | (intro t ht
               rcases ih B A _ _ tr' b' (Or.inl h) t ht with h3 | ⟨hwb, hwa, hq⟩
               · rcases List.mem_append.mp h3 with h4 | h4
                 · exact Or.inl h4
                 · simp at h4
                   subst h4
                   exact Or.inr ⟨own_pair_head hb rfl rfl,
                     own_pair_head ha rfl rfl, rfl⟩
               · refine Or.inr ⟨?_, ?_, hq⟩
                 · repeat replace hwb := own_pair_pop hwb
                   first
                     | exact hwb
                     | (rcases own_pair_store hwb with hwb | hp
                        · exact hwb
                        · exact own_pair_head hb hp.1 hp.2)
                 · repeat replace hwa := own_pair_pop hwa
                   first
                     | exact hwa
                     | (rcases own_pair_store hwa with hwa | hp
                        · exact hwa
                        · exact own_pair_head ha hp.1 hp.2))
            | simp at h
        · repeat' split at h
          all_goals first
            | (rcases InnerRes.ret.inj h with ⟨h1, h2⟩
               subst h1
               intro t ht
               rcases List.mem_append.mp ht with h3 | h3
               · exact Or.inl h3
               · simp at h3
                 subst h3
                 exact Or.inr ⟨own_pair_head hb rfl rfl,
                   own_pair_head ha rfl rfl, rfl⟩)
            | (intro t ht
               rcases ih B A _ _ tr' b' (Or.inr h) t ht with h3 | ⟨hwb, hwa, hq⟩
               · rcases List.mem_append.mp h3 with h4 | h4
                 · exact Or.inl h4
                 · simp at h4
                   subst h4
                   exact Or.inr ⟨own_pair_head hb rfl rfl,
                     own_pair_head ha rfl rfl, rfl⟩
               · refine Or.inr ⟨?_, ?_, hq⟩
                 · repeat replace hwb := own_pair_pop hwb
                   first
                     | exact hwb
                     | (rcases own_pair_store hwb with hwb | hp
                        · exact hwb
                        · exact own_pair_head hb hp.1 hp.2)
                 · repeat replace hwa := own_pair_pop hwa
                   first
                     | exact hwa
                     | (rcases own_pair_store hwa with hwa | hp
                        · exact hwa
                        · exact own_pair_head ha hp.1 hp.2))
            | simp at h

theorem match_inner_book_own (fuel : ℕ) :
    ∀ (B A : ℚ) (b : Book) (tr tr' : List Trade) (b' : Book),
      (match_inner fuel B A b tr = InnerRes.done tr' b' ∨
        match_inner fuel B A b tr = InnerRes.ret tr' b') →
      ∀ ti : TradeInfo,
        (own_pair b'.bids ti → own_pair b.bids ti) ∧
        (own_pair b'.asks ti → own_pair b.asks ti) := by
  induction fuel with
  | zero =>
    intro B A b tr tr' b' hres
    rcases hres with h | h <;> simp [match_inner] at h
  | succ n ih =>
    intro B A b tr tr' b' hres
    cases hb : alGetD b.bids B [] with
    | nil =>
      rcases hres with h | h <;> simp [match_inner, hb] at h
      intro ti
      rw [← h.2]
      exact ⟨id, id⟩
    | cons bid0 bs =>
      cases ha : alGetD b.asks A [] with
      | nil =>
        rcases hres with h | h <;> simp [match_inner, hb, ha] at h
        intro ti
        rw [← h.2]
        exact ⟨id, id⟩
      | cons ask0 as =>
        simp only [match_inner, hb, ha, fill_min_left, fill_min_right] at hres
        rcases hres with h | h
        · repeat' split at h
          all_goals first
            | (rcases InnerRes.done.inj h with ⟨h1, h2⟩
               subst h2
               intro ti
               constructor
               · intro hw
                 repeat first
                   | replace hw := own_pair_pop hw
                   | replace hw := own_pair_alErase hw
                 first
                   | exact hw
                   | (rcases own_pair_store hw with hw | hp
                      · exact hw
                      · exact own_pair_head hb hp.1 hp.2)
               · intro hw
                 repeat first
                   | replace hw := own_pair_pop hw
                   | replace hw := own_pair_alErase hw
                 first
                   | exact hw
                   | (rcases own_pair_store hw with hw | hp
                      · exact hw
                      · exact own_pair_head ha hp.1 hp.2))
            | (intro ti
               constructor
               · intro hw
                 replace hw := (ih B A _ _ tr' b' (Or.inl h) ti).1 hw
                 repeat replace hw := own_pair_pop hw
                 first
                   | exact hw
                   | (rcases own_pair_store hw with hw | hp
                      · exact hw
                      · exact own_pair_head hb hp.1 hp.2)
               · intro hw
                 replace hw := (ih B A _ _ tr' b' (Or.inl h) ti).2 hw
                 repeat replace hw := own_pair_pop hw
                 first
                   | exact hw
                   | (rcases own_pair_store hw with hw | hp
                      · exact hw
                      · exact own_pair_head ha hp.1 hp.2))
            | simp at h
        · repeat' split at h
          all_goals first
            | (rcases InnerRes.ret.inj h with ⟨h1, h2⟩
               subst h2
               intro ti
               constructor
               · intro hw
                 repeat replace hw := own_pair_cancel_bids hw
                 first
                   | exact hw
                   | (rcases own_pair_store hw with hw | hp
                      · exact hw
                      · exact own_pair_head hb hp.1 hp.2)
               · intro hw
                 repeat replace hw := own_pair_cancel_asks hw
                 first
                   | exact hw
                   | (rcases own_pair_store hw with hw | hp
                      · exact hw
                      · exact own_pair_head ha hp.1 hp.2))
            | (intro ti
               constructor
               · intro hw
                 replace hw := (ih B A _ _ tr' b' (Or.inr h) ti).1 hw
                 repeat replace hw := own_pair_pop hw
                 first
                   | exact hw
                   | (rcases own_pair_store hw with hw | hp
                      · exact hw
                      · exact own_pair_head hb hp.1 hp.2)
               · intro hw
                 replace hw := (ih B A _ _ tr' b' (Or.inr h) ti).2 hw
                 repeat replace hw := own_pair_pop hw
                 first
                   | exact hw
                   | (rcases own_pair_store hw with hw | hp
                      · exact hw
                      · exact own_pair_head ha hp.1 hp.2))
            | simp at h

theorem match_outer_trades_own (fuel : ℕ) :
    ∀ (b : Book) (tr tr' : List Trade) (b' : Book),
      match_outer fuel b tr = Except.ok (tr', b') →
      ∀ t ∈ tr', t ∈ tr ∨
        (own_pair b.bids t.bid_trade ∧ own_pair b.asks t.ask_trade ∧
          t.bid_trade.quantity = t.ask_trade.quantity) := by
  induction fuel with
  | zero =>
    intro b tr tr' b' h
    simp [match_outer] at h
  | succ n ih =>
    intro b tr tr' b' h
    simp only [match_outer] at h
    split at h
    · injection h with h2
      injection h2 with h3 h4
      subst h3
      intro t ht
      exact Or.inl ht
    · split at h
      · injection h with h2
        injection h2 with h3 h4
        subst h3
        intro t ht
        exact Or.inl ht
      · cases hmi : match_inner n (maxKey b.bids) (minKey b.asks) b tr with
        | done tr₂ b₂ =>
          rw [hmi] at h
          intro t ht
          rcases ih b₂ tr₂ tr' b' h t ht with hmem | ⟨hwb, hwa, hq⟩
          · exact match_inner_trades_own n _ _ b tr tr₂ b₂ (Or.inl hmi) t hmem
          · have hinc := match_inner_book_own n _ _ b tr tr₂ b₂ (Or.inl hmi)
            exact Or.inr ⟨(hinc t.bid_trade).1 hwb, (hinc t.ask_trade).2 hwa, hq⟩
        | ret tr₂ b₂ =>
          rw [hmi] at h
          injection h with h2
          injection h2 with h3 h4
          subst h3
          exact match_inner_trades_own n _ _ b tr tr₂ b₂ (Or.inr hmi)
        | err e =>
          rw [hmi] at h
          simp at h

theorem match_orders_trades_own (b : Book) :
    ∀ t ∈ trades_of (match_orders b),
      own_pair b.bids t.bid_trade ∧ own_pair b.asks t.ask_trade ∧
        t.bid_trade.quantity = t.ask_trade.quantity := by
  intro t ht
  cases h : match_orders b with
  | ok r =>
    rw [h] at ht
    rcases match_outer_trades_own (match_fuel b) b [] r.1 r.2
      (by rw [match_orders] at h; rw [h]) t ht with hmem | hp
    · simp at hmem
    · exact hp
  | error e => simp [trades_of, h] at ht

/- ### The matching loop is a no-op on an uncrossed book -/

theorem match_outer_noop (n : ℕ) (b : Book) (tr : List Trade)
    (h : (b.bids.isEmpty || b.asks.isEmpty ||
      decide (maxKey b.bids < minKey b.asks)) = true) :
    match_outer (n + 1) b tr = Except.ok (tr, b) := by
  simp only [match_outer]
  by_cases h1 : (b.bids.isEmpty || b.asks.isEmpty) = true
  · simp [h1]
  · have h2 : maxKey b.bids < minKey b.asks := by
      simp [h1] at h
      exact h
    simp [h1, h2] at h ⊢

theorem match_orders_noop (b : Book)
    (h : (b.bids.isEmpty || b.asks.isEmpty ||
      decide (maxKey b.bids < minKey b.asks)) = true) :
    match_orders b = Except.ok ([], b) :=
  match_outer_noop _ b [] h

/- ### Unpacking the boolean well-formedness predicates -/

theorem id_free_lookup {b : Book} {i : ℕ} (h : id_free b i = true) :
    alLookup b.orders i = none := by
  simp [id_free] at h
  exact h.1.1

theorem id_free_bids {b : Book} {i : ℕ} (h : id_free b i = true) :
    ∀ kv ∈ b.bids, ∀ x ∈ kv.2, x.order_id ≠ i := by
  simp [id_free] at h
  intro kv hkv x hx
  exact h.1.2 kv.1 kv.2 hkv x hx

theorem id_free_asks {b : Book} {i : ℕ} (h : id_free b i = true) :
    ∀ kv ∈ b.asks, ∀ x ∈ kv.2, x.order_id ≠ i := by
  simp [id_free] at h
  intro kv hkv x hx
  exact h.2 kv.1 kv.2 hkv x hx

theorem queues_nonempty_bids {b : Book} (h : queues_nonempty b = true) :
    ∀ kv ∈ b.bids, kv.2 ≠ [] := by
  simp [queues_nonempty] at h
  intro kv hkv
  exact h.1 kv.1 kv.2 hkv

theorem queues_nonempty_asks {b : Book} (h : queues_nonempty b = true) :
    ∀ kv ∈ b.asks, kv.2 ≠ [] := by
  simp [queues_nonempty] at h
  intro kv hkv
  exact h.2 kv.1 kv.2 hkv

theorem data_counts_pos_mem {b : Book} (h : data_counts_pos b = true) :
    ∀ kv ∈ b.data, 0 < kv.2.count := by
  simp [data_counts_pos] at h
  intro kv hkv
  exact h kv.1 kv.2 hkv

/- ### The ledger update of a cancel undoes the ledger update of the
corresponding insert -/

theorem update_level_data_roundtrip (b₁ b₂ : Book) (p : ℚ) (q : ℕ)
    (hpos : ∀ kv ∈ b₁.data, 0 < kv.2.count)
    (hdata : b₂.data = (update_level_data b₁ p q true false).data) :
    (update_level_data b₂ p q false false).data = b₁.data := by
  have hc1ne : ¬((alGetD b₁.data p ⟨0, 0⟩).count + 1 = 0) := by
    by_cases hp : p ∈ alKeys b₁.data
    · have hcpos : 0 < (alGetD b₁.data p ⟨0, 0⟩).count :=
        hpos _ (alGetD_mem ⟨0, 0⟩ hp)
      omega
    · rw [alGetD, alLookup_eq_none.mpr hp]
      simp
  rw [update_level_data] at hdata
  simp only [if_pos, if_neg, ite_true, ite_false] at hdata
  rw [if_neg hc1ne] at hdata
  have hcur' : alGetD b₂.data p ⟨0, 0⟩ =
      ⟨(alGetD b₁.data p ⟨0, 0⟩).quantity + (q : ℤ),
        (alGetD b₁.data p ⟨0, 0⟩).count + 1⟩ := by
    rw [hdata, alGetD, alLookup_alSet_self]
    rfl
  rw [update_level_data]
  simp only [Bool.false_eq_true, ite_false]
  rw [hcur']
  dsimp only
  have hsub : (LevelData.mk
      ((alGetD b₁.data p ⟨0, 0⟩).quantity + (q : ℤ) - (q : ℤ))
      ((alGetD b₁.data p ⟨0, 0⟩).count + 1 - 1)) = alGetD b₁.data p ⟨0, 0⟩ := by
    have h1 : (alGetD b₁.data p ⟨0, 0⟩).quantity + (q : ℤ) - (q : ℤ) =
        (alGetD b₁.data p ⟨0, 0⟩).quantity := by ring
    have h2 : (alGetD b₁.data p ⟨0, 0⟩).count + 1 - 1 =
        (alGetD b₁.data p ⟨0, 0⟩).count := by ring
    rw [h1, h2]
  rw [hsub, hdata, alSet_alSet]
  by_cases hp : p ∈ alKeys b₁.data
  · have hcpos : 0 < (alGetD b₁.data p ⟨0, 0⟩).count :=
      hpos _ (alGetD_mem ⟨0, 0⟩ hp)
    rw [if_neg (by omega)]
    exact alSet_getD_self b₁.data p ⟨0, 0⟩ hp
  · have hz : alGetD b₁.data p ⟨0, 0⟩ = ⟨0, 0⟩ := by
      rw [alGetD, alLookup_eq_none.mpr hp]
      rfl
    rw [hz]
    dsimp only
    rw [if_pos (by omega : (0 : ℤ) + 1 - 1 = 0), alSet_of_not_mem b₁.data _ hp]
    exact alErase_append_of_not_mem b₁.data _ hp

/- ### The queue update of a cancel undoes the queue update of the
corresponding insert -/

theorem queue_roundtrip (M : List (ℚ × List Order)) (p : ℚ) (o : Order)
    (hid : ∀ kv ∈ M, ∀ x ∈ kv.2, x.order_id ≠ o.order_id)
    (hne : ∀ kv ∈ M, kv.2 ≠ []) :
    (if (removeOrder (alGetD (alSet M p (alGetD M p [] ++ [o])) p [])
          o.order_id).isEmpty
     then alErase (alSet M p (alGetD M p [] ++ [o])) p
     else alReplace (alSet M p (alGetD M p [] ++ [o])) p
       (removeOrder (alGetD (alSet M p (alGetD M p [] ++ [o])) p [])
          o.order_id)) = M := by
  have hget : alGetD (alSet M p (alGetD M p [] ++ [o])) p [] =
      alGetD M p [] ++ [o] := by
    rw [alGetD, alLookup_alSet_self]
    rfl
  have hLid : ∀ x ∈ alGetD M p [], x.order_id ≠ o.order_id := by
    by_cases hp : p ∈ alKeys M
    · exact fun x hx => hid _ (alGetD_mem [] hp) x hx
    · intro x hx
      rw [alGetD, alLookup_eq_none.mpr hp] at hx
      simp at hx
  have hrm : removeOrder (alGetD M p [] ++ [o]) o.order_id = alGetD M p [] :=
    removeOrder_append hLid
  rw [hget, hrm]
  by_cases hL : alGetD M p [] = []
  · have hp : p ∉ alKeys M := by
      intro hmem
      exact hne _ (alGetD_mem [] hmem) hL
    rw [hL]
    rw [if_pos (show (List.isEmpty ([] : List Order)) = true from rfl)]
    rw [alSet_of_not_mem M _ hp]
    exact alErase_append_of_not_mem M _ hp
  · have hp : p ∈ alKeys M := by
      by_contra hp
      exact hL (by rw [alGetD, alLookup_eq_none.mpr hp]; rfl)
    have hcond : ¬((alGetD M p []).isEmpty = true) := by
      intro hE
      exact hL (List.isEmpty_iff.mp hE)
    rw [if_neg hcond, alReplace_alSet]
    exact alSet_getD_self M p [] hp

/- ### Cancelling a freshly inserted order restores the book exactly -/

theorem cancel_insert (b : Book) (t : OrderType) (i : ℕ) (s : Side) (p : ℚ)
    (q : ℕ) (hfree : id_free b i = true) (hq : queues_nonempty b = true)
    (hpos : data_counts_pos b = true) :
    cancel_order (insert_order b (Order.new t i s p q)) i = b := by
  obtain ⟨D, Bi, As, Ords⟩ := b
  have hlook : alLookup Ords i = none := id_free_lookup hfree
  have hnotmem : i ∉ alKeys Ords := alLookup_eq_none.mp hlook
  have hposD : ∀ kv ∈ D, 0 < kv.2.count := data_counts_pos_mem hpos
  have horders : alErase (alSet Ords i (Order.new t i s p q)) i = Ords := by
    rw [alSet_of_not_mem Ords _ hnotmem]
    exact alErase_append_of_not_mem Ords _ hnotmem
  have hdata' := update_level_data_roundtrip ⟨D, Bi, As, Ords⟩
    ⟨(update_level_data ⟨D, Bi, As, Ords⟩ p q true false).data, Bi, As, Ords⟩
    p q hposD rfl
  cases s with
  | BUY =>
    have hid : ∀ kv ∈ Bi, ∀ x ∈ kv.2, x.order_id ≠ i := id_free_bids hfree
    have hne : ∀ kv ∈ Bi, kv.2 ≠ [] := queues_nonempty_bids hq
    have hqr := queue_roundtrip Bi p (Order.new t i Side.BUY p q) hid hne
    simp only [cancel_order, insert_order, setQueues, sideQueues, Order.new,
      update_level_data_orders, alLookup_alSet_self, update_level_data]
    simp only [Book.mk.injEq]
    refine ⟨?_, ?_, trivial, ?_⟩
    · exact hdata'
    · exact hqr
    · exact horders
  | SELL =>
    have hid : ∀ kv ∈ As, ∀ x ∈ kv.2, x.order_id ≠ i := id_free_asks hfree
    have hne : ∀ kv ∈ As, kv.2 ≠ [] := queues_nonempty_asks hq
    have hqr := queue_roundtrip As p (Order.new t i Side.SELL p q) hid hne
    simp only [cancel_order, insert_order, setQueues, sideQueues, Order.new,
      update_level_data_orders, alLookup_alSet_self, update_level_data]
    simp only [Book.mk.injEq]
    refine ⟨?_, trivial, ?_, ?_⟩
    · exact hdata'
    · exact hqr
    · exact horders

/- ### Inserting a non-marketable order keeps the book uncrossed, so the
matching loop is a no-op on it -/

theorem insert_order_bids_buy (b : Book) (o : Order) (h : o.side = Side.BUY) :
    (insert_order b o).bids =
      alSet b.bids o.price (alGetD b.bids o.price [] ++ [o]) := by
  simp [insert_order, sideQueues, setQueues, h, update_level_data_bids]

theorem insert_order_asks_buy (b : Book) (o : Order) (h : o.side = Side.BUY) :
    (insert_order b o).asks = b.asks := by
  simp [insert_order, sideQueues, setQueues, h, update_level_data_asks]

theorem insert_order_asks_sell (b : Book) (o : Order) (h : o.side = Side.SELL) :
    (insert_order b o).asks =
      alSet b.asks o.price (alGetD b.asks o.price [] ++ [o]) := by
  simp [insert_order, sideQueues, setQueues, h, update_level_data_asks]

theorem insert_order_bids_sell (b : Book) (o : Order) (h : o.side = Side.SELL) :
    (insert_order b o).bids = b.bids := by
  simp [insert_order, sideQueues, setQueues, h, update_level_data_bids]

theorem isEmpty_false_of_ne_nil {α : Type} {l : List α} (h : l ≠ []) :
    l.isEmpty = false := by
  cases hE : l.isEmpty
  · rfl
  · exact absurd (List.isEmpty_iff.mp hE) h

theorem uncrossed_lt {b : Book} (hu : uncrossed b = true) (h1 : b.bids ≠ [])
    (h2 : b.asks ≠ []) : maxKey b.bids < minKey b.asks := by
  rw [uncrossed, isEmpty_false_of_ne_nil h1, isEmpty_false_of_ne_nil h2] at hu
  simpa using hu

theorem insert_noop_cond (b : Book) (o : Order)
    (hu : uncrossed b = true) (hcm : can_match b o.side o.price = false) :
    ((insert_order b o).bids.isEmpty || (insert_order b o).asks.isEmpty ||
      decide (maxKey (insert_order b o).bids <
        minKey (insert_order b o).asks)) = true := by
  cases hs : o.side with
  | BUY =>
    rw [insert_order_asks_buy b o hs, insert_order_bids_buy b o hs]
    by_cases ha : b.asks.isEmpty = true
    · simp [ha]
    · have hane : b.asks ≠ [] := by
        intro hnil
        exact ha (by simp [hnil])
      have hlt : o.price < minKey b.asks := by
        rw [hs] at hcm
        simp only [can_match] at hcm
        rw [isEmpty_false_of_ne_nil hane] at hcm
        simp at hcm
        exact hcm
      have hall : ∀ x ∈ alKeys
          (alSet b.bids o.price (alGetD b.bids o.price [] ++ [o])),
          x < minKey b.asks := by
        intro x hx
        rcases mem_alKeys_alSet hx with hx1 | hx1
        · have hbne2 : b.bids ≠ [] := by
            intro hnil
            rw [hnil] at hx1
            simp [alKeys] at hx1
          exact lt_of_le_of_lt (le_maxKey hx1) (uncrossed_lt hu hbne2 hane)
        · rw [hx1]
          exact hlt
      have hmax := maxKey_lt_of_forall
        (alSet_ne_nil b.bids o.price (alGetD b.bids o.price [] ++ [o])) hall
      simp [hmax]
  | SELL =>
    rw [insert_order_asks_sell b o hs, insert_order_bids_sell b o hs]
    by_cases hb : b.bids.isEmpty = true
    · simp [hb]
    · have hbne : b.bids ≠ [] := by
        intro hnil
        exact hb (by simp [hnil])
      have hlt : maxKey b.bids < o.price := by
        rw [hs] at hcm
        simp only [can_match] at hcm
        rw [isEmpty_false_of_ne_nil hbne] at hcm
        simp at hcm
        exact hcm
      have hall : ∀ x ∈ alKeys
          (alSet b.asks o.price (alGetD b.asks o.price [] ++ [o])),
          maxKey b.bids < x := by
        intro x hx
        rcases mem_alKeys_alSet hx with hx1 | hx1
        · have hane2 : b.asks ≠ [] := by
            intro hnil
            rw [hnil] at hx1
            simp [alKeys] at hx1
          exact lt_of_lt_of_le (uncrossed_lt hu hbne hane2) (minKey_le hx1)
        · rw [hx1]
          exact hlt
      have hmin := lt_minKey_of_forall
        (alSet_ne_nil b.asks o.price (alGetD b.asks o.price [] ++ [o])) hall
      simp [hmin]

/-- Claim C6: for a well-formed book and a fresh, non-marketable order
(non-marketable in the glossary sense: a limit order whose price fails
can_match, or a Market order facing an empty opposite side), add_order
returns no trades and cancel_order of the same identifier restores the
book to exactly its prior state: same side-map keys and queues in order,
same registry, same ledger entries. -/
theorem cancel_inverts_add_nonmarketable (b : Book) (t : OrderType) (i : ℕ)
    (s : Side) (p : ℚ) (q : ℕ)
    (hfree : id_free b i = true) (hq : queues_nonempty b = true)
    (hu : uncrossed b = true) (hpos : data_counts_pos b = true)
    (hnm : non_marketable b (Order.new t i s p q) = true) :
    ∃ b₁, add_order b (Order.new t i s p q) = Except.ok ([], b₁) ∧
      cancel_order b₁ i = b := by
  have hlook : alLookup b.orders i = none := id_free_lookup hfree
  cases t with
  | MARKET =>
    refine ⟨b, ?_, by simp [cancel_order, hlook]⟩
    cases s with
    | BUY =>
      have hae : b.asks.isEmpty = true := by
        simpa [non_marketable, Order.new] using hnm
      simp [add_order, Order.new, hlook, hae]
    | SELL =>
      have hbe : b.bids.isEmpty = true := by
        simpa [non_marketable, Order.new] using hnm
      simp [add_order, Order.new, hlook, hbe]
  | FILL_AND_KILL =>
    have hcm : can_match b s p = false := by
      have := hnm
      simp [non_marketable, Order.new] at this
      simpa using this
    refine ⟨b, ?_, by simp [cancel_order, hlook]⟩
    simp [add_order, add_order_after_checks, Order.new, hlook, hcm]
  | FILL_OR_KILL =>
    have hcm : can_match b s p = false := by
      have := hnm
      simp [non_marketable, Order.new] at this
      simpa using this
    have hcff : can_fully_fill b s p q = false := by
      simp [can_fully_fill, hcm]
    refine ⟨b, ?_, by simp [cancel_order, hlook]⟩
    simp [add_order, add_order_after_checks, Order.new, hlook, hcff]
  | GOOD_TILL_CANCEL =>
    have hcm : can_match b s p = false := by
      have := hnm
      simp [non_marketable, Order.new] at this
      simpa using this
    refine ⟨insert_order b (Order.new OrderType.GOOD_TILL_CANCEL i s p q), ?_,
      cancel_insert b OrderType.GOOD_TILL_CANCEL i s p q hfree hq hpos⟩
    have hnoop := match_orders_noop
      (insert_order b (Order.new OrderType.GOOD_TILL_CANCEL i s p q))
      (insert_noop_cond b (Order.new OrderType.GOOD_TILL_CANCEL i s p q) hu hcm)
    simp [add_order, add_order_after_checks, Order.new, hlook]
    simpa [insert_order, Order.new] using hnoop
  | GOOD_FOR_DAY =>
    have hcm : can_match b s p = false := by
      have := hnm
      simp [non_marketable, Order.new] at this
      simpa using this
    refine ⟨insert_order b (Order.new OrderType.GOOD_FOR_DAY i s p q), ?_,
      cancel_insert b OrderType.GOOD_FOR_DAY i s p q hfree hq hpos⟩
    have hnoop := match_orders_noop
      (insert_order b (Order.new OrderType.GOOD_FOR_DAY i s p q))
      (insert_noop_cond b (Order.new OrderType.GOOD_FOR_DAY i s p q) hu hcm)
    simp [add_order, add_order_after_checks, Order.new, hlook]
    simpa [insert_order, Order.new] using hnoop

/-- Claim C6 witness: adding a non-marketable buy to the empty book and
cancelling it restores the empty book. -/
theorem cancel_inverts_add_nonmarketable_witness :
    cancel_order (after_ok (add_order emptyBook
      (Order.new OrderType.GOOD_TILL_CANCEL 1 Side.BUY 100 5))) 1 = emptyBook := by
  obtain ⟨b₁, hadd, hcancel⟩ := cancel_inverts_add_nonmarketable emptyBook
    OrderType.GOOD_TILL_CANCEL 1 Side.BUY 100 5 (by decide) (by decide)
    (by decide) (by decide) (by decide)
  rw [hadd]
  exact hcancel

/-- Claim C7: modify_order of a registered identifier yields exactly the
result of cancel_order of that identifier followed by add_order of a
fresh order with the original order's discipline and the request's
identifier, side, price, and quantity — the same final book and the same
trade list. -/
theorem modify_is_cancel_then_add (b : Book) (m : OrderModify) (o : Order)
    (h : alLookup b.orders m.order_id = some o) :
    modify_order b m =
      add_order (cancel_order b m.order_id)
        (Order.new o.order_type m.order_id m.side m.price m.quantity) := by
  rw [modify_order, h]
  rfl

/-- Claim C7 witness. -/
theorem modify_is_cancel_then_add_witness :
    modify_order c7_book (OrderModify.mk 1 Side.BUY 101 15) =
      add_order (cancel_order c7_book 1)
        (Order.new OrderType.GOOD_TILL_CANCEL 1 Side.BUY 101 15) :=
  modify_is_cancel_then_add c7_book (OrderModify.mk 1 Side.BUY 101 15)
    (Order.new OrderType.GOOD_TILL_CANCEL 1 Side.BUY 100 10) (by decide)

/-- Claim C5: a Market-discipline admission with an empty opposite side
returns the empty trade list and leaves the book unchanged; with a
non-empty opposite side it is exactly the admission of the same order
re-priced at the opposite side's worst resident price (highest ask for a
Buy, lowest bid for a Sell) with discipline GoodTillCancel. -/
theorem market_order_conversion (b : Book) (o : Order)
    (hm : o.order_type = OrderType.MARKET)
    (hfree : alLookup b.orders o.order_id = none) :
    (o.side = Side.BUY →
      (b.asks = [] → add_order b o = Except.ok ([], b)) ∧
      (b.asks ≠ [] → add_order b o =
        add_order b
          { o with
              price := maxKey b.asks,
              order_type := OrderType.GOOD_TILL_CANCEL })) ∧
    (o.side = Side.SELL →
      (b.bids = [] → add_order b o = Except.ok ([], b)) ∧
      (b.bids ≠ [] → add_order b o =
        add_order b
          { o with
              price := minKey b.bids,
              order_type := OrderType.GOOD_TILL_CANCEL })) := by
  constructor
  · intro hside
    constructor
    · intro hae
      simp [add_order, hfree, hm, hside, hae]
    · intro hane
      have hconv : o.to_good_till_cancel (maxKey b.asks) =
          some { o with
                   price := maxKey b.asks,
                   order_type := OrderType.GOOD_TILL_CANCEL } := by
        simp [Order.to_good_till_cancel, hm]
      simp [add_order, hfree, hm, hside, isEmpty_false_of_ne_nil hane, hconv]
  · intro hside
    constructor
    · intro hbe
      simp [add_order, hfree, hm, hside, hbe]
    · intro hbne
      have hconv : o.to_good_till_cancel (minKey b.bids) =
          some { o with
                   price := minKey b.bids,
                   order_type := OrderType.GOOD_TILL_CANCEL } := by
        simp [Order.to_good_till_cancel, hm]
      simp [add_order, hfree, hm, hside, isEmpty_false_of_ne_nil hbne, hconv]

/-- Claim C5 witness: a market buy against one resting ask at 100 equals
the same admission re-priced at 100 as GoodTillCancel. -/
theorem market_order_conversion_witness :
    add_order c5_book (Order.new OrderType.MARKET 2 Side.BUY 0 5) =
      add_order c5_book
        { Order.new OrderType.MARKET 2 Side.BUY 0 5 with
            price := maxKey c5_book.asks,
            order_type := OrderType.GOOD_TILL_CANCEL } := by
  have h := market_order_conversion c5_book
    (Order.new OrderType.MARKET 2 Side.BUY 0 5) rfl (by decide)
  exact (h.1 rfl).2 (by decide)

/-- Claim C8: every call the matching loop makes to Order.fill passes
min(bid.remaining, ask.remaining), which never exceeds either side's
remaining quantity, so the fill-overflow error is never raised: neither
the inner loop nor a whole match ever yields the fill_overflow error,
for any book state and any fuel. -/
theorem matching_never_overfills :
    (∀ (fuel : ℕ) (B A : ℚ) (b : Book) (tr : List Trade),
      inner_overflow (match_inner fuel B A b tr) = false) ∧
    ∀ b : Book, result_overflow (match_orders b) = false :=
  ⟨match_inner_no_overflow,
    fun b => match_outer_no_overflow (match_fuel b) b []⟩

/-- Claim C9 (code_bug evidence): against the non-reentrant lock,
modify_order on a present identifier deadlocks by re-acquiring the lock
inside cancel_order, whatever lock events the subsequent add_order would
contribute; likewise add_order deadlocks whenever its matching loop's
fill-and-kill branch invokes cancel_order. -/
theorem modify_and_fak_reacquire_lock :
    (∀ add_events : List LockEvent,
      deadlock_free (modify_order_lock_events true add_events) = false) ∧
    ∀ rest : List LockEvent,
      deadlock_free (add_order_lock_events true rest) = false := by
  constructor
  · intro add_events
    simp [modify_order_lock_events, cancel_order_lock_events, deadlock_free,
      run_lock]
  · intro rest
    simp [add_order_lock_events, cancel_order_lock_events, deadlock_free,
      run_lock]

/-- Claim C1 (code_bug evidence): in spec scenario 5 the model of the
code emits exactly one trade (quantity 5, resting ask price 100) and
cancels the residual 2 of ImmediateOrCancel order 3, but the
fill-and-kill early return skips the removal of the fully filled resting
order 1, which stays registered with remaining quantity 0 — so size is 2,
not 1 as the claim (and the repository's own test) expects. -/
theorem scenario5_fak_leaves_filled_head_resident :
    trades_of s5_result =
      [Trade.mk (TradeInfo.mk 3 101 5) (TradeInfo.mk 1 100 5)] ∧
    alLookup (after_ok s5_result).orders 3 = none ∧
    alLookup (after_ok s5_result).orders 1 =
      some (Order.mk OrderType.GOOD_TILL_CANCEL 1 Side.SELL 100 5 0) ∧
    size (after_ok s5_result) = 2 := by decide

/-- Claim C2 (code_bug evidence): after an add_order whose fill-and-kill
early return fires with both heads fully filled, both orders stay
resident, both side maps are non-empty, and max bid 101 exceeds min ask
100 — the book is crossed at rest. -/
theorem fak_return_leaves_crossed_book :
    is_ok c2_result = true ∧
    (after_ok c2_result).bids.isEmpty = false ∧
    (after_ok c2_result).asks.isEmpty = false ∧
    maxKey (after_ok c2_result).bids = 101 ∧
    minKey (after_ok c2_result).asks = 100 ∧
    decide (maxKey (after_ok c2_result).bids <
      minKey (after_ok c2_result).asks) = false := by decide

/-- Claim C3 (code_bug evidence): the feasibility walk runs over the
unified ledger and counts the same-side bid depth of 10 at 99 toward
filling a Buy AllOrNone of 10 at 100 against only 5 of opposing depth;
the order is admitted, trades only 5, and rests with remaining quantity
5 — neither a full fill nor an unchanged book. -/
theorem fok_admission_counts_own_side_depth :
    can_fully_fill c3_book Side.BUY 100 10 = true ∧
    trades_of c3_result =
      [Trade.mk (TradeInfo.mk 3 100 5) (TradeInfo.mk 2 100 5)] ∧
    alLookup (after_ok c3_result).orders 3 =
      some (Order.mk OrderType.FILL_OR_KILL 3 Side.BUY 100 10 5) ∧
    decide (after_ok c3_result = c3_book) = false := by decide

/-- Claim C4 (counterexample): with one ask resting at price 100 and an
aggressor bid whose limit 101 crosses it, the emitted trade's bid-side
TradeInfo carries price 101 — the aggressor's own limit — while the
ask-side carries 100, refuting the claim that both sides report the
resting side's price. -/
theorem trade_reports_aggressor_own_price_not_resting :
    alLookup c4_book.asks 100 =
      some [Order.mk OrderType.GOOD_TILL_CANCEL 1 Side.SELL 100 5 5] ∧
    trades_of c4_result =
      [Trade.mk (TradeInfo.mk 2 101 5) (TradeInfo.mk 1 100 5)] ∧
    decide ((trades_of c4_result).map (fun t => t.bid_trade.price)
      = [100]) = false := by decide

/-- Claim C4 (amended): every trade the matching loop emits carries one
shared quantity on its two sides, and each side's TradeInfo carries the
order_id and the price of a single order record resident on that same
side of the book the loop was entered on — each side reports its own
order's price, never the counterparty's; in the concrete crossing
(resting ask id=1 at 100, aggressor bid id=2 with limit 101) the bid
side therefore reports 101, the aggressor's own limit, and the ask side
reports 100. -/
theorem trade_sides_share_quantity_and_report_own_price :
    (∀ (b : Book) (t : Trade), t ∈ trades_of (match_orders b) →
      own_pair b.bids t.bid_trade ∧ own_pair b.asks t.ask_trade ∧
        t.bid_trade.quantity = t.ask_trade.quantity) ∧
    trades_of c4_result =
      [Trade.mk (TradeInfo.mk 2 101 5) (TradeInfo.mk 1 100 5)] :=
  ⟨fun b t ht => match_orders_trades_own b t ht, by decide⟩

/-- Claim C4 witness. -/
theorem trade_sides_share_quantity_witness :
    (Trade.mk (TradeInfo.mk 2 101 5) (TradeInfo.mk 1 100 5)).bid_trade.quantity
      = (Trade.mk (TradeInfo.mk 2 101 5)
          (TradeInfo.mk 1 100 5)).ask_trade.quantity :=
  (trade_sides_share_quantity_and_report_own_price.1 c4_match_book
    (Trade.mk (TradeInfo.mk 2 101 5) (TradeInfo.mk 1 100 5)) (by decide)).2.2

/- ### The frame properties of cancel_order -/

theorem nodup_alKeys_alSet {K V : Type} [DecidableEq K] {l : List (K × V)}
    (k : K) (v : V) (h : (alKeys l).Nodup) : (alKeys (alSet l k v)).Nodup := by
  by_cases hp : k ∈ alKeys l
  · rw [alKeys_alSet_of_mem l v hp]
    exact h
  · rw [alSet_of_not_mem l v hp]
    have hk : alKeys (l ++ [(k, v)]) = alKeys l ++ [k] := by simp [alKeys]
    rw [hk]
    simp [List.nodup_append, h, hp]

theorem cancel_queue_frame (M : List (ℚ × List Order)) (P : ℚ)
    (L : List Order) {p : ℚ} (hne : p ≠ P) :
    alGetD (if L.isEmpty then alErase M P else alReplace M P L) p []
      = alGetD M p [] := by
  by_cases hE : L.isEmpty = true
  · rw [if_pos hE, alGetD, alGetD, alLookup_alErase_ne M hne]
  · rw [if_neg hE, alGetD, alGetD, alLookup_alReplace_ne M _ hne]

theorem cancel_queue_self (M : List (ℚ × List Order)) (P : ℚ) (i : ℕ)
    (hnod : (alKeys M).Nodup) :
    alGetD (if (removeOrder (alGetD M P []) i).isEmpty
            then alErase M P
            else alReplace M P (removeOrder (alGetD M P []) i)) P []
      = removeOrder (alGetD M P []) i := by
  by_cases hE : (removeOrder (alGetD M P []) i).isEmpty = true
  · rw [if_pos hE, alGetD, alLookup_alErase_self M P hnod]
    exact (List.isEmpty_iff.mp hE).symm
  · rw [if_neg hE]
    have hsome : alLookup M P = some (alGetD M P []) := by
      cases hL : alLookup M P with
      | none =>
        exfalso
        apply hE
        rw [alGetD, hL]
        rfl
      | some w =>
        rw [alGetD, hL]
        rfl
    rw [alGetD, alLookup_alReplace_self _ hsome]
    rfl

/-- Claim C10: cancel_order of a registered identifier removes exactly
that order and nothing else: the registry becomes its erasure at that
identifier, every other registry lookup is unchanged, every queue other
than the one at the order's own side and price is unchanged, the order's
own queue merely loses that order (other orders keep their relative
positions), ledger entries at all other prices are untouched, and the
entry at the order's price loses exactly one count and the order's
remaining quantity, the entry being dropped when its count reaches zero.
No trades are produced: cancel_order returns only a book. -/
theorem cancel_order_frame (b : Book) (i : ℕ) (o : Order)
    (hlook : alLookup b.orders i = some o) (hoid : o.order_id = i)
    (hnodb : (alKeys b.bids).Nodup) (hnoda : (alKeys b.asks).Nodup)
    (hnodd : (alKeys b.data).Nodup) :
    (cancel_order b i).orders = alErase b.orders i ∧
    (∀ j : ℕ, j ≠ i →
      alLookup (cancel_order b i).orders j = alLookup b.orders j) ∧
    (∀ (s : Side) (p : ℚ), ¬(s = o.side ∧ p = o.price) →
      queue_at (cancel_order b i) s p = queue_at b s p) ∧
    queue_at (cancel_order b i) o.side o.price =
      removeOrder (queue_at b o.side o.price) i ∧
    (∀ p : ℚ, p ≠ o.price →
      alLookup (cancel_order b i).data p = alLookup b.data p) ∧
    alLookup (cancel_order b i).data o.price =
      (if (alGetD b.data o.price ⟨0, 0⟩).count - 1 = 0 then none
       else some ⟨(alGetD b.data o.price ⟨0, 0⟩).quantity
          - (o.remaining_quantity : ℤ),
         (alGetD b.data o.price ⟨0, 0⟩).count - 1⟩) := by
  cases hside : o.side with
  | BUY =>
    have hres : cancel_order b i =
        update_level_data
          { b with
              bids := (if (removeOrder (alGetD b.bids o.price []) i).isEmpty
                       then alErase b.bids o.price
                       else alReplace b.bids o.price
                         (removeOrder (alGetD b.bids o.price []) i)),
              orders := alErase b.orders i }
          o.price o.remaining_quantity false false := by
      simp only [cancel_order, hlook, hside, hoid]
    rw [hres]
    refine ⟨rfl, ?_, ?_, ?_, ?_, ?_⟩
    · intro j hj
      exact alLookup_alErase_ne b.orders hj
    · intro s p hsp
      cases s with
      | BUY =>
        have hp : p ≠ o.price := fun hpp => hsp ⟨rfl, hpp⟩
        exact cancel_queue_frame b.bids o.price _ hp
      | SELL => rfl
    · exact cancel_queue_self b.bids o.price i hnodb
    · intro p hp
      simp only [update_level_data, Bool.false_eq_true, ite_false]
      by_cases hc : ((alGetD b.data o.price ⟨0, 0⟩).count - 1 = 0)
      · dsimp only
        rw [if_pos hc, alLookup_alErase_ne _ hp, alLookup_alSet_ne _ _ hp]
      · dsimp only
        rw [if_neg hc, alLookup_alSet_ne _ _ hp]
    · simp only [update_level_data, Bool.false_eq_true, ite_false]
      by_cases hc : ((alGetD b.data o.price ⟨0, 0⟩).count - 1 = 0)
      · dsimp only
        rw [if_pos hc, if_pos hc]
        exact alLookup_alErase_self _ o.price
          (nodup_alKeys_alSet o.price _ hnodd)
      · dsimp only
        rw [if_neg hc, if_neg hc]
        exact alLookup_alSet_self b.data o.price _
  | SELL =>
    have hres : cancel_order b i =
        update_level_data
          { b with
              asks := (if (removeOrder (alGetD b.asks o.price []) i).isEmpty
                       then alErase b.asks o.price
                       else alReplace b.asks o.price
                         (removeOrder (alGetD b.asks o.price []) i)),
              orders := alErase b.orders i }
          o.price o.remaining_quantity false false := by
      simp only [cancel_order, hlook, hside, hoid]
    rw [hres]
    refine ⟨rfl, ?_, ?_, ?_, ?_, ?_⟩
    · intro j hj
      exact alLookup_alErase_ne b.orders hj
    · intro s p hsp
      cases s with
      | SELL =>
        have hp : p ≠ o.price := fun hpp => hsp ⟨rfl, hpp⟩
        exact cancel_queue_frame b.asks o.price _ hp
      | BUY => rfl
    · exact cancel_queue_self b.asks o.price i hnoda
    · intro p hp
      simp only [update_level_data, Bool.false_eq_true, ite_false]
      by_cases hc : ((alGetD b.data o.price ⟨0, 0⟩).count - 1 = 0)
      · dsimp only
        rw [if_pos hc, alLookup_alErase_ne _ hp, alLookup_alSet_ne _ _ hp]
      · dsimp only
        rw [if_neg hc, alLookup_alSet_ne _ _ hp]
    · simp only [update_level_data, Bool.false_eq_true, ite_false]
      by_cases hc : ((alGetD b.data o.price ⟨0, 0⟩).count - 1 = 0)
      · dsimp only
        rw [if_pos hc, if_pos hc]
        exact alLookup_alErase_self _ o.price
          (nodup_alKeys_alSet o.price _ hnodd)
      · dsimp only
        rw [if_neg hc, if_neg hc]
        exact alLookup_alSet_self b.data o.price _

/-- Claim C10 witness: cancelling order 2 of a two-bid book erases
exactly its registry entry and removes it from its own queue. -/
theorem cancel_order_frame_witness :
    (cancel_order c10_book 2).orders = alErase c10_book.orders 2 ∧
    queue_at (cancel_order c10_book 2) Side.BUY 99 =
      removeOrder (queue_at c10_book Side.BUY 99) 2 := by
  have h := cancel_order_frame c10_book 2
    (Order.new OrderType.GOOD_TILL_CANCEL 2 Side.BUY 99 20)
    (by decide) (by decide) (by decide) (by decide) (by decide)
  exact ⟨h.1, h.2.2.2.1⟩

end OB
